import Mathlib

/-!
Shallow embedding of the TrustBase `baseNFT` ink! smart contract
(`src/contracts/baseNFT/lib.rs`) together with proofs about its behaviour.

Modelling conventions:
* `AccountId` is modelled as `Nat`; the reserved all-zero account
  (`AccountId::from([0x0; 32])`) is modelled as `0`.
* An `ink_storage` `StorageHashMap` is modelled as an association list
  (`Map`) with `get`, `insert`, `erase` and `containsKey`; a real hash map
  never holds two entries with the same key, which corresponds to the
  `Map.NodupKeys` predicate here.
* A Rust `expect` failure (a panic, which traps the contract call) is
  modelled by `Option.none` for the internal helpers and by `Outcome.trap`
  for the public messages.
* `u32` arithmetic wraps modulo `2 ^ 32` (`U32_MOD`): the unchecked
  `*count -= 1` and `*v += 1` of the source are modelled as wrapping
  operations on the stored counter value.
* Returning `Err(e)` from an ink! 3.x message commits storage, so
  `Outcome.err e s` carries the (possibly partially mutated) post-state `s`.
-/

namespace baseNFT

/-- Account identifiers; `0` stands for the reserved all-zero null identity. -/
abbrev AccountId := Nat

/-- Token identifiers (`u32` in the source). -/
abbrev TokenId := Nat

/-- The constant `TOKENID_INIT` of the source. -/
def TOKENID_INIT : Nat := 188

/-- The constant `MATEDATA_INIT` of the source. -/
def MATEDATA_INIT : Nat := 20

/-- The modulus of `u32` arithmetic. -/
def U32_MOD : Nat := 4294967296

/-- Association-list model of an `ink_storage` `StorageHashMap`. -/
abbrev Map (κ ν : Type) := List (κ × ν)

namespace Map

variable {κ ν : Type} [DecidableEq κ]

/-- Model of `HashMap::get` (also `owner_of`'s `get(..).cloned()`). -/
def get : Map κ ν → κ → Option ν
  | [], _ => none
  | p :: l, k => if p.1 = k then some p.2 else get l k

/-- Model of `HashMap::contains_key`. -/
def containsKey : Map κ ν → κ → Bool
  | [], _ => false
  | p :: l, k => decide (p.1 = k) || containsKey l k

/-- Removal of the entry of a key (`take`, `remove_entry`). -/
def erase : Map κ ν → κ → Map κ ν
  | [], _ => []
  | p :: l, k => if p.1 = k then l else p :: erase l k

/-- Model of `HashMap::insert`, also of the in-place update of an occupied
entry: the key is bound to the new value, any previous binding disappears. -/
def insert (l : Map κ ν) (k : κ) (v : ν) : Map κ ν :=
  (k, v) :: erase l k

/-- A hash map never stores two entries with the same key; every state the
real contract can hold satisfies this for each of its four maps. -/
def NodupKeys (l : Map κ ν) : Prop :=
  (l.map Prod.fst).Nodup

instance (l : Map κ ν) : Decidable (NodupKeys l) := by
  unfold NodupKeys; infer_instance

/-- The number of entries of the map holding a given value. -/
def countVal [DecidableEq ν] : Map κ ν → ν → Nat
  | [], _ => 0
  | p :: l, v => (if p.2 = v then 1 else 0) + countVal l v

theorem get_eq_none_of_not_mem_keys :
    ∀ (l : Map κ ν) (k : κ), k ∉ l.map Prod.fst → get l k = none
  | [], _, _ => rfl
  | p :: l, k, h => by
    have hp : ¬ p.1 = k := by
      intro he; exact h (by simp [he])
    have ht : k ∉ l.map Prod.fst := by
      intro hm; exact h (by simp [hm])
    simp [get, hp, get_eq_none_of_not_mem_keys l k ht]

theorem mem_keys_of_get_eq_some :
    ∀ (l : Map κ ν) (k : κ) (v : ν), get l k = some v → k ∈ l.map Prod.fst
  | p :: l, k, v, h => by
    by_cases hp : p.1 = k
    · simp [hp]
    · simp only [get, hp, if_false] at h
      simp [mem_keys_of_get_eq_some l k v h]

theorem get_mem :
    ∀ (l : Map κ ν) (k : κ) (v : ν), get l k = some v → (k, v) ∈ l
  | p :: l, k, v, h => by
    by_cases hp : p.1 = k
    · simp only [get, hp, if_true, Option.some.injEq] at h
      cases p with
      | mk a b =>
        simp only at hp h
        subst hp
        subst h
        exact List.mem_cons_self _ _
    · simp only [get, hp, if_false] at h
      exact List.mem_cons_of_mem p (get_mem l k v h)

theorem get_of_mem :
    ∀ {l : Map κ ν} {k : κ} {v : ν}, NodupKeys l → (k, v) ∈ l → get l k = some v := by
  intro l
  induction l with
  | nil => intro k v _ h; cases h
  | cons p l ih =>
    intro k v hn hm
    have hsplit : p.1 ∉ l.map Prod.fst ∧ NodupKeys l := by
      unfold NodupKeys at hn
      simp only [List.map_cons, List.nodup_cons] at hn
      exact hn
    rw [List.mem_cons] at hm
    rcases hm with hm | hm
    · cases p with
      | mk a b =>
        cases hm
        simp [get]
    · have hk : k ∈ l.map Prod.fst := List.mem_map.mpr ⟨(k, v), hm, rfl⟩
      have hp : ¬ p.1 = k := by
        intro he; rw [he] at hsplit; exact hsplit.1 hk
      simp [get, hp, ih hsplit.2 hm]

theorem containsKey_eq_isSome_get :
    ∀ (l : Map κ ν) (k : κ), containsKey l k = (get l k).isSome
  | [], _ => rfl
  | p :: l, k => by
    by_cases hp : p.1 = k
    · simp [containsKey, get, hp]
    · simp [containsKey, get, hp, containsKey_eq_isSome_get l k]

theorem containsKey_iff_mem_keys :
    ∀ (l : Map κ ν) (k : κ), containsKey l k = true ↔ k ∈ l.map Prod.fst
  | [], k => by simp [containsKey]
  | p :: l, k => by
    by_cases hp : p.1 = k
    · simp [containsKey, hp]
    · have hne : ¬ k = p.1 := fun he => hp he.symm
      simp [containsKey, hp, hne, containsKey_iff_mem_keys l k]

theorem erase_of_not_contains :
    ∀ (l : Map κ ν) (k : κ), containsKey l k = false → erase l k = l
  | [], _, _ => rfl
  | p :: l, k, h => by
    simp only [containsKey, Bool.or_eq_false_iff, decide_eq_false_iff_not] at h
    simp [erase, h.1, erase_of_not_contains l k h.2]

theorem length_erase_of_contains :
    ∀ (l : Map κ ν) (k : κ), containsKey l k = true → (erase l k).length + 1 = l.length
  | p :: l, k, h => by
    by_cases hp : p.1 = k
    · simp [erase, hp]
    · simp only [containsKey, Bool.or_eq_true, decide_eq_true_eq] at h
      rcases h with h | h
      · exact absurd h hp
      · simp [erase, hp, length_erase_of_contains l k h]

theorem get_erase_ne :
    ∀ (l : Map κ ν) (k k' : κ), k' ≠ k → get (erase l k) k' = get l k'
  | [], _, _, _ => rfl
  | p :: l, k, k', h => by
    by_cases hp : p.1 = k
    · have hpk : ¬ p.1 = k' := by rw [hp]; exact fun hh => h hh.symm
      simp only [erase, get]
      rw [if_pos hp, if_neg hpk]
    · simp only [erase, get]
      rw [if_neg hp]
      by_cases hpk : p.1 = k'
      · simp only [get]
        rw [if_pos hpk, if_pos hpk]
      · simp only [get]
        rw [if_neg hpk, if_neg hpk]
        exact get_erase_ne l k k' h

theorem mem_keys_erase :
    ∀ (l : Map κ ν) (k k' : κ), k' ∈ (erase l k).map Prod.fst → k' ∈ l.map Prod.fst
  | p :: l, k, k', h => by
    by_cases hp : p.1 = k
    · simp only [erase, hp, if_true] at h
      simp [h]
    · simp only [erase, hp, if_false, List.map_cons, List.mem_cons] at h
      rcases h with h | h
      · simp [h]
      · simp [mem_keys_erase l k k' h]

theorem nodupKeys_erase :
    ∀ (l : Map κ ν) (k : κ), NodupKeys l → NodupKeys (erase l k)
  | [], _, _ => by simp [erase, NodupKeys]
  | p :: l, k, h => by
    unfold NodupKeys at h
    simp only [List.map_cons, List.nodup_cons] at h
    by_cases hp : p.1 = k
    · simpa [erase, hp, NodupKeys] using h.2
    · unfold NodupKeys
      simp only [erase, hp, if_false, List.map_cons, List.nodup_cons]
      exact ⟨fun hm => h.1 (mem_keys_erase l k p.1 hm), nodupKeys_erase l k h.2⟩

theorem get_erase_self :
    ∀ (l : Map κ ν) (k : κ), NodupKeys l → get (erase l k) k = none
  | [], _, _ => rfl
  | p :: l, k, h => by
    have hsplit : p.1 ∉ l.map Prod.fst ∧ NodupKeys l := by
      unfold NodupKeys at h
      simp only [List.map_cons, List.nodup_cons] at h
      exact h
    by_cases hp : p.1 = k
    · simp only [erase]
      rw [if_pos hp]
      apply get_eq_none_of_not_mem_keys
      rw [← hp]
      exact hsplit.1
    · simp only [erase]
      rw [if_neg hp]
      simp only [get]
      rw [if_neg hp]
      exact get_erase_self l k hsplit.2

theorem containsKey_erase_self (l : Map κ ν) (k : κ) (h : NodupKeys l) :
    containsKey (erase l k) k = false := by
  rw [containsKey_eq_isSome_get, get_erase_self l k h]
  rfl

theorem get_insert_self (l : Map κ ν) (k : κ) (v : ν) :
    get (insert l k v) k = some v := by
  simp [insert, get]

theorem get_insert_ne (l : Map κ ν) (k k' : κ) (v : ν) (h : k' ≠ k) :
    get (insert l k v) k' = get l k' := by
  have hk : ¬ k = k' := fun he => h he.symm
  simp [insert, get, hk, get_erase_ne l k k' h]

theorem nodupKeys_insert (l : Map κ ν) (k : κ) (v : ν) (h : NodupKeys l) :
    NodupKeys (insert l k v) := by
  unfold NodupKeys
  simp only [insert, List.map_cons, List.nodup_cons]
  constructor
  · intro hm
    have hc : containsKey (erase l k) k = true := (containsKey_iff_mem_keys _ k).mpr hm
    rw [containsKey_erase_self l k h] at hc
    cases hc
  · exact nodupKeys_erase l k h

theorem countVal_le_length [DecidableEq ν] :
    ∀ (l : Map κ ν) (v : ν), countVal l v ≤ l.length
  | [], _ => Nat.le_refl 0
  | p :: l, v => by
    by_cases hp : p.2 = v
    · simpa [countVal, hp, Nat.add_comm] using Nat.succ_le_succ (countVal_le_length l v)
    · simp only [countVal, hp, if_false, Nat.zero_add, List.length_cons]
      exact Nat.le_succ_of_le (countVal_le_length l v)

theorem countVal_pos_of_mem [DecidableEq ν] :
    ∀ (l : Map κ ν) (k : κ) (v : ν), (k, v) ∈ l → 1 ≤ countVal l v
  | p :: l, k, v, h => by
    rw [List.mem_cons] at h
    rcases h with h | h
    · rw [← h]
      simp [countVal]
    · by_cases hp : p.2 = v
      · simp [countVal, hp]
      · simp only [countVal, hp, if_false, Nat.zero_add]
        exact countVal_pos_of_mem l k v h

theorem countVal_erase [DecidableEq ν] :
    ∀ (l : Map κ ν) (k : κ) (w v : ν), NodupKeys l → get l k = some w →
      countVal l v = countVal (erase l k) v + (if w = v then 1 else 0)
  | p :: l, k, w, v, hn, hg => by
    unfold NodupKeys at hn
    simp only [List.map_cons, List.nodup_cons] at hn
    by_cases hp : p.1 = k
    · simp only [get, hp, if_true, Option.some.injEq] at hg
      simp only [erase, hp, if_true, countVal, hg]
      exact Nat.add_comm _ _
    · simp only [get, hp, if_false] at hg
      simp only [erase, hp, if_false, countVal]
      rw [countVal_erase l k w v hn.2 hg]
      exact (Nat.add_assoc _ _ _).symm

theorem finite_getSet (l : Map κ ν) (v : ν) : {k : κ | get l k = some v}.Finite := by
  apply Set.Finite.subset (List.finite_toSet (l.map Prod.fst))
  intro k hk
  exact mem_keys_of_get_eq_some l k v hk

theorem ncard_get_eq_countVal [DecidableEq ν] :
    ∀ (l : Map κ ν), NodupKeys l → ∀ (v : ν),
      Set.ncard {k : κ | get l k = some v} = countVal l v
  | [], _, v => by
    have he : {k : κ | get ([] : Map κ ν) k = some v} = ∅ := by
      ext k; simp [get]
    simp [he, countVal]
  | p :: l, hn, v => by
    have hsplit : p.1 ∉ l.map Prod.fst ∧ NodupKeys l := by
      unfold NodupKeys at hn
      simp only [List.map_cons, List.nodup_cons] at hn
      exact hn
    have hanot : p.1 ∉ {k : κ | get l k = some v} := by
      intro hm
      exact hsplit.1 (mem_keys_of_get_eq_some l p.1 v hm)
    by_cases hp : p.2 = v
    · have hset : {k : κ | get (p :: l) k = some v} =
          Insert.insert p.1 {k : κ | get l k = some v} := by
        ext k
        simp only [Set.mem_setOf_eq, Set.mem_insert_iff, get]
        by_cases hk : p.1 = k
        · rw [if_pos hk, hp]
          constructor
          · intro _; exact Or.inl hk.symm
          · intro _; rfl
        · rw [if_neg hk]
          constructor
          · intro hg; exact Or.inr hg
          · intro hg
            rcases hg with hg | hg
            · exact absurd hg.symm hk
            · exact hg
      rw [hset, Set.ncard_insert_of_not_mem hanot (finite_getSet l v)]
      rw [ncard_get_eq_countVal l hsplit.2 v]
      simp only [countVal]
      rw [if_pos hp]
      exact Nat.add_comm _ _
    · have hset : {k : κ | get (p :: l) k = some v} = {k : κ | get l k = some v} := by
        ext k
        simp only [Set.mem_setOf_eq, get]
        by_cases hk : p.1 = k
        · rw [if_pos hk]
          constructor
          · intro hg
            exact absurd (Option.some.inj hg) hp
          · intro hg
            have hm := mem_keys_of_get_eq_some l k v hg
            rw [← hk] at hm
            exact absurd hm hsplit.1
        · rw [if_neg hk]
      rw [hset, ncard_get_eq_countVal l hsplit.2 v]
      simp only [countVal]
      rw [if_neg hp]
      exact (Nat.zero_add _).symm

end Map

/-- The contract error enum of the source. -/
inductive Error : Type
  | NotOwner
  | NotApproved
  | TokenExists
  | TokenNotFound
  | CannotInsert
  | CannotRemove
  | CannotFetchValue
  | NotAllowed
deriving DecidableEq

/-- The contract storage struct `Simple_NFT`. -/
structure Simple_NFT : Type where
  token_owner : Map TokenId AccountId
  owned_tokens_count : Map AccountId Nat
  matedatas : Map TokenId Nat
  approvals_token : Map (AccountId × TokenId) AccountId
deriving DecidableEq

/-- Decidable equality for `Except`, used to evaluate the `Result`-returning
helpers on concrete inputs. -/
instance {ε α : Type} [DecidableEq ε] [DecidableEq α] : DecidableEq (Except ε α) :=
  fun a b =>
    match a, b with
    | Except.error e, Except.error f =>
      if h : e = f then isTrue (by rw [h])
      else isFalse (fun hh => h (by rw [Except.error.injEq] at hh; exact hh))
    | Except.error _, Except.ok _ => isFalse (fun hh => Except.noConfusion hh)
    | Except.ok _, Except.error _ => isFalse (fun hh => Except.noConfusion hh)
    | Except.ok x, Except.ok y =>
      if h : x = y then isTrue (by rw [h])
      else isFalse (fun hh => h (by rw [Except.ok.injEq] at hh; exact hh))

/-- Result of one public contract message.  `trap` models a panic (the ink!
environment rolls the call back); `err e s` models `Err(e)` with the storage
committed as `s` (ink! 3.x does not roll back on `Err`); `ok s` models
`Ok(())` with storage `s`. -/
inductive Outcome : Type
  | trap
  | err (e : Error) (s : Simple_NFT)
  | ok (s : Simple_NFT)
deriving DecidableEq

/-- The storage left behind by a call: a trapped call leaves the previous
storage, a completed call (`Ok` or `Err`) leaves its committed storage. -/
def postState (s : Simple_NFT) : Outcome → Simple_NFT
  | Outcome.trap => s
  | Outcome.err _ t => t
  | Outcome.ok t => t

/-- Free function `decrease_counter_of`: `get_mut(of).ok_or(CannotFetchValue)`
followed by the unchecked `*count -= 1` (wrapping `u32` subtraction). -/
def decrease_counter_of (hmap : Map AccountId Nat) (of : AccountId) :
    Except Error (Map AccountId Nat) :=
  match Map.get hmap of with
  | none => Except.error Error.CannotFetchValue
  | some c => Except.ok (Map.insert hmap of ((c + (U32_MOD - 1)) % U32_MOD))

/-- Free function `increase_counter_of`: `entry.and_modify(|v| *v += 1).or_insert(1)`
(wrapping `u32` addition). -/
def increase_counter_of (hmap : Map AccountId Nat) (to_ : AccountId) :
    Map AccountId Nat :=
  match Map.get hmap to_ with
  | none => Map.insert hmap to_ 1
  | some c => Map.insert hmap to_ ((c + 1) % U32_MOD)

/-- `balance_of_or_zero`. -/
def balance_of_or_zero (s : Simple_NFT) (of : AccountId) : Nat :=
  (Map.get s.owned_tokens_count of).getD 0

/-- Message `balance_of`. -/
def balance_of (s : Simple_NFT) (owner : AccountId) : Nat :=
  balance_of_or_zero s owner

/-- Message `owner_of`. -/
def owner_of (s : Simple_NFT) (id : TokenId) : Option AccountId :=
  Map.get s.token_owner id

/-- Private `exists`: `get(&id).is_some() && contains_key(&id)`. -/
def exists_ (s : Simple_NFT) (id : TokenId) : Bool :=
  (Map.get s.token_owner id).isSome && Map.containsKey s.token_owner id

/-- Message `get_approved`.  The outer `Option` is the panic monad: the
source calls `owner.expect(..)`, so a token without owner traps (`none`). -/
def get_approved (s : Simple_NFT) (id : TokenId) : Option (Option AccountId) :=
  match owner_of s id with
  | none => none
  | some ow => some (Map.get s.approvals_token (ow, id))

/-- Private `approved_for_token`; outer `Option` is the panic monad (the
source calls `owner.expect(..)` after the null-user early return). -/
def approved_for_token (s : Simple_NFT) (id : TokenId) (user : AccountId) :
    Option Bool :=
  if user = 0 then some false
  else
    match owner_of s id with
    | none => none
    | some ow => some (decide (user = (Map.get s.approvals_token (ow, id)).getD 0))

/-- Message `is_approved`. -/
def is_approved (s : Simple_NFT) (id : TokenId) (user : AccountId) : Option Bool :=
  approved_for_token s id user

/-- Private `clear_approval`; outer `Option` is the panic monad (the source
calls `owner.expect(..)`). -/
def clear_approval (s : Simple_NFT) (id : TokenId) :
    Option (Except Error Simple_NFT) :=
  match owner_of s id with
  | none => none
  | some ow =>
    if Map.containsKey s.approvals_token (ow, id) = false then
      some (Except.ok s)
    else
      match Map.get s.approvals_token (ow, id) with
      | some _ =>
          some (Except.ok
            { s with approvals_token := Map.erase s.approvals_token (ow, id) })
      | none => some (Except.error Error.CannotRemove)

/-- Private `remove_token_from`: vacant entry means `TokenNotFound`, then
`decrease_counter_of` may fail with `CannotFetchValue` (no mutation in either
failure), then the token entry is removed. -/
def remove_token_from (s : Simple_NFT) (from_ : AccountId) (id : TokenId) :
    Except Error Simple_NFT :=
  if Map.containsKey s.token_owner id = false then Except.error Error.TokenNotFound
  else
    match decrease_counter_of s.owned_tokens_count from_ with
    | Except.error e => Except.error e
    | Except.ok counts =>
        Except.ok { s with owned_tokens_count := counts,
                           token_owner := Map.erase s.token_owner id }

/-- Private `add_token_to`: occupied entry means `TokenExists`, the null
destination means `NotAllowed`, otherwise the counter is increased and the
token entry inserted. -/
def add_token_to (s : Simple_NFT) (to_ : AccountId) (id : TokenId) :
    Except Error Simple_NFT :=
  if Map.containsKey s.token_owner id = true then Except.error Error.TokenExists
  else if to_ = 0 then Except.error Error.NotAllowed
  else
    Except.ok { s with
      owned_tokens_count := increase_counter_of s.owned_tokens_count to_,
      token_owner := Map.insert s.token_owner id to_ }

/-- Private `approve_for`; outer `Option` is the panic monad (the source
calls `owner.expect(..)` when inserting, after the two guards). -/
def approve_for (s : Simple_NFT) (caller to_ : AccountId) (id : TokenId) :
    Option (Except Error Simple_NFT) :=
  if owner_of s id ≠ some caller then some (Except.error Error.NotAllowed)
  else if to_ = 0 then some (Except.error Error.NotAllowed)
  else
    match owner_of s id with
    | none => none
    | some ow =>
        some (Except.ok
          { s with approvals_token := Map.insert s.approvals_token (ow, id) to_ })

/-- Message `approve` (caller made explicit). -/
def approve (s : Simple_NFT) (caller to_ : AccountId) (id : TokenId) : Outcome :=
  match approve_for s caller to_ id with
  | none => Outcome.trap
  | some (Except.error e) => Outcome.err e s
  | some (Except.ok s1) => Outcome.ok s1

/-- The mutation tail of `transfer_token_from`: `clear_approval(id)?` then
`remove_token_from(from, id)?` then `add_token_to(to, id)?`.  An error after
a successful prefix commits the partially mutated state (ink! 3.x `?` simply
returns the `Err`). -/
def transfer_rest (s : Simple_NFT) (from_ to_ : AccountId) (id : TokenId) : Outcome :=
  match clear_approval s id with
  | none => Outcome.trap
  | some (Except.error e) => Outcome.err e s
  | some (Except.ok s1) =>
    match remove_token_from s1 from_ id with
    | Except.error e => Outcome.err e s1
    | Except.ok s2 =>
      match add_token_to s2 to_ id with
      | Except.error e => Outcome.err e s2
      | Except.ok s3 => Outcome.ok s3

/-- Private `transfer_token_from` (caller made explicit): existence check,
then the owner check (direct path) or the delegate check (approval path),
then the mutation tail. -/
def transfer_token_from (s : Simple_NFT) (caller from_ to_ : AccountId)
    (id : TokenId) (need_approval : Bool) : Outcome :=
  if exists_ s id = false then Outcome.err Error.TokenNotFound s
  else if need_approval = false ∧ owner_of s id ≠ some caller then
    Outcome.err Error.NotAllowed s
  else if need_approval = true then
    match approved_for_token s id caller with
    | none => Outcome.trap
    | some false => Outcome.err Error.NotApproved s
    | some true => transfer_rest s from_ to_ id
  else transfer_rest s from_ to_ id

/-- Message `transfer`: the caller transfers to `destination`
(`transfer_token_from(&caller, &destination, id, false)`). -/
def transfer (s : Simple_NFT) (caller destination : AccountId) (id : TokenId) :
    Outcome :=
  transfer_token_from s caller caller destination id false

/-- Message `transfer_from`
(`transfer_token_from(&from, &to, id, true)`). -/
def transfer_from (s : Simple_NFT) (caller from_ to_ : AccountId) (id : TokenId) :
    Outcome :=
  transfer_token_from s caller from_ to_ id true

/-- One iteration of the `inherent_init` loop: the result of `add_token_to`
is discarded (a failed mint is ignored), the metadata entry is written
unconditionally. -/
def init_step (caller : AccountId) (s : Simple_NFT) (i : Nat) : Simple_NFT :=
  let s1 :=
    match add_token_to s caller (TOKENID_INIT + i) with
    | Except.ok t => t
    | Except.error _ => s
  { s1 with matedatas := Map.insert s1.matedatas (TOKENID_INIT + i) (MATEDATA_INIT + i) }

/-- Private `inherent_init`: the `for i in 0..10` mint loop. -/
def inherent_init (s : Simple_NFT) (caller : AccountId) : Simple_NFT :=
  (List.range 10).foldl (init_step caller) s

/-- Constructor `new` (caller made explicit): default storage followed by
`inherent_init`. -/
def new (caller : AccountId) : Simple_NFT :=
  inherent_init
    { token_owner := [], owned_tokens_count := [], matedatas := [], approvals_token := [] }
    caller

/-- States reachable by constructing the contract and then performing any
sequence of `approve`, `transfer` and `transfer_from` calls with arbitrary
callers and arguments. -/
inductive Reachable : Simple_NFT → Prop
  | newC (caller : AccountId) : Reachable (new caller)
  | approveC (s : Simple_NFT) (caller to_ : AccountId) (id : TokenId) :
      Reachable s → Reachable (postState s (approve s caller to_ id))
  | transferC (s : Simple_NFT) (caller dest : AccountId) (id : TokenId) :
      Reachable s → Reachable (postState s (transfer s caller dest id))
  | transferFromC (s : Simple_NFT) (caller from_ to_ : AccountId) (id : TokenId) :
      Reachable s → Reachable (postState s (transfer_from s caller from_ to_ id))

/-- Like `Reachable`, but every `transfer_from` call passes the token's
current owner as its `from` argument (honest delegated transfers). -/
inductive ReachableHonest : Simple_NFT → Prop
  | newC (caller : AccountId) : ReachableHonest (new caller)
  | approveC (s : Simple_NFT) (caller to_ : AccountId) (id : TokenId) :
      ReachableHonest s → ReachableHonest (postState s (approve s caller to_ id))
  | transferC (s : Simple_NFT) (caller dest : AccountId) (id : TokenId) :
      ReachableHonest s → ReachableHonest (postState s (transfer s caller dest id))
  | transferFromC (s : Simple_NFT) (caller from_ to_ : AccountId) (id : TokenId) :
      ReachableHonest s → owner_of s id = some from_ →
      ReachableHonest (postState s (transfer_from s caller from_ to_ id))

/-! ### Structural lemmas about the contract operations -/

theorem exists_eq_isSome (s : Simple_NFT) (id : TokenId) :
    exists_ s id = (owner_of s id).isSome := by
  unfold exists_ owner_of
  rw [Map.containsKey_eq_isSome_get]
  cases Map.get s.token_owner id <;> rfl

theorem clear_approval_eq (s : Simple_NFT) (id : TokenId) (ow : AccountId)
    (h : owner_of s id = some ow) :
    clear_approval s id =
      some (Except.ok
        { s with approvals_token := Map.erase s.approvals_token (ow, id) }) := by
  simp only [clear_approval, h]
  by_cases hc : Map.containsKey s.approvals_token (ow, id) = false
  · rw [if_pos hc, Map.erase_of_not_contains _ _ hc]
  · rw [if_neg hc]
    have hc2 : (Map.get s.approvals_token (ow, id)).isSome = true := by
      rw [← Map.containsKey_eq_isSome_get]
      cases hcc : Map.containsKey s.approvals_token (ow, id)
      · exact absurd hcc hc
      · rfl
    rcases Option.isSome_iff_exists.mp hc2 with ⟨d, hd⟩
    simp only [hd]

theorem remove_token_from_eq (s : Simple_NFT) (from_ : AccountId) (id : TokenId)
    (c : Nat) (hc : Map.containsKey s.token_owner id = true)
    (hget : Map.get s.owned_tokens_count from_ = some c) :
    remove_token_from s from_ id = Except.ok
      { s with
        owned_tokens_count :=
          Map.insert s.owned_tokens_count from_ ((c + (U32_MOD - 1)) % U32_MOD),
        token_owner := Map.erase s.token_owner id } := by
  have hnf : ¬ (Map.containsKey s.token_owner id = false) := by
    rw [hc]; intro hh; cases hh
  unfold remove_token_from decrease_counter_of
  rw [if_neg hnf]
  simp only [hget]

theorem remove_token_from_no_counter (s : Simple_NFT) (from_ : AccountId)
    (id : TokenId) (hc : Map.containsKey s.token_owner id = true)
    (hget : Map.get s.owned_tokens_count from_ = none) :
    remove_token_from s from_ id = Except.error Error.CannotFetchValue := by
  have hnf : ¬ (Map.containsKey s.token_owner id = false) := by
    rw [hc]; intro hh; cases hh
  unfold remove_token_from decrease_counter_of
  rw [if_neg hnf]
  simp only [hget]

theorem add_token_to_eq (s : Simple_NFT) (to_ : AccountId) (id : TokenId)
    (hc : Map.containsKey s.token_owner id = false) (hto : to_ ≠ 0) :
    add_token_to s to_ id = Except.ok
      { s with
        owned_tokens_count := increase_counter_of s.owned_tokens_count to_,
        token_owner := Map.insert s.token_owner id to_ } := by
  have hnt : ¬ (Map.containsKey s.token_owner id = true) := by
    rw [hc]; intro hh; cases hh
  unfold add_token_to
  rw [if_neg hnt, if_neg hto]

theorem add_token_to_err (s : Simple_NFT) (id : TokenId) :
    add_token_to s 0 id = Except.error
      (if Map.containsKey s.token_owner id = true then Error.TokenExists
       else Error.NotAllowed) := by
  unfold add_token_to
  by_cases hc : Map.containsKey s.token_owner id = true
  · rw [if_pos hc, if_pos hc]
  · rw [if_neg hc, if_pos rfl, if_neg hc]

theorem approve_not_owner (s : Simple_NFT) (caller to_ : AccountId) (id : TokenId)
    (h : owner_of s id ≠ some caller) :
    approve s caller to_ id = Outcome.err Error.NotAllowed s := by
  unfold approve approve_for
  rw [if_pos h]

theorem approve_null_delegate (s : Simple_NFT) (caller : AccountId) (id : TokenId) :
    approve s caller 0 id = Outcome.err Error.NotAllowed s := by
  unfold approve approve_for
  by_cases h : owner_of s id ≠ some caller
  · rw [if_pos h]
  · rw [if_neg h, if_pos rfl]

theorem approve_ok (s : Simple_NFT) (caller to_ : AccountId) (id : TokenId)
    (h : owner_of s id = some caller) (hto : to_ ≠ 0) :
    approve s caller to_ id = Outcome.ok
      { s with approvals_token := Map.insert s.approvals_token (caller, id) to_ } := by
  unfold approve approve_for
  rw [if_neg (fun hh => hh h), if_neg hto]
  simp only [h]

theorem approve_no_trap (s : Simple_NFT) (caller to_ : AccountId) (id : TokenId) :
    approve s caller to_ id ≠ Outcome.trap := by
  by_cases h : owner_of s id = some caller
  · by_cases hto : to_ = 0
    · rw [hto, approve_null_delegate s caller id]
      intro hh; cases hh
    · rw [approve_ok s caller to_ id h hto]
      intro hh; cases hh
  · rw [approve_not_owner s caller to_ id h]
    intro hh; cases hh

theorem approved_for_token_isSome (s : Simple_NFT) (id : TokenId) (user : AccountId)
    (how : (owner_of s id).isSome = true) :
    (approved_for_token s id user).isSome = true := by
  unfold approved_for_token
  by_cases hu : user = 0
  · rw [if_pos hu]; rfl
  · rw [if_neg hu]
    rcases Option.isSome_iff_exists.mp how with ⟨ow, hw⟩
    simp only [hw]
    rfl

theorem transfer_rest_no_trap (s : Simple_NFT) (from_ to_ : AccountId) (id : TokenId)
    (ow : AccountId) (h : owner_of s id = some ow) :
    transfer_rest s from_ to_ id ≠ Outcome.trap := by
  unfold transfer_rest
  simp only [clear_approval_eq s id ow h]
  cases hr : remove_token_from
      { s with approvals_token := Map.erase s.approvals_token (ow, id) } from_ id with
  | error e => simp only [hr]; intro hh; cases hh
  | ok s2 =>
    simp only [hr]
    cases ha : add_token_to s2 to_ id with
    | error e => simp only [ha]; intro hh; cases hh
    | ok s3 => simp only [ha]; intro hh; cases hh

theorem transfer_token_from_no_trap (s : Simple_NFT) (caller from_ to_ : AccountId)
    (id : TokenId) (na : Bool) :
    transfer_token_from s caller from_ to_ id na ≠ Outcome.trap := by
  unfold transfer_token_from
  by_cases hex : exists_ s id = false
  · rw [if_pos hex]; intro hh; cases hh
  · rw [if_neg hex]
    have how : (owner_of s id).isSome = true := by
      rw [exists_eq_isSome] at hex
      cases hq : (owner_of s id).isSome
      · rw [hq] at hex; exact absurd rfl hex
      · rfl
    rcases Option.isSome_iff_exists.mp how with ⟨ow, hw⟩
    by_cases hg : na = false ∧ owner_of s id ≠ some caller
    · rw [if_pos hg]; intro hh; cases hh
    · rw [if_neg hg]
      cases na with
      | false =>
        rw [if_neg (fun hh : false = true => Bool.noConfusion hh)]
        exact transfer_rest_no_trap s from_ to_ id ow hw
      | true =>
        rw [if_pos rfl]
        rcases Option.isSome_iff_exists.mp
          (approved_for_token_isSome s id caller how) with ⟨b, hb⟩
        simp only [hb]
        cases b with
        | false => intro hh; cases hh
        | true => exact transfer_rest_no_trap s from_ to_ id ow hw

theorem transfer_rest_to_null_not_ok (s : Simple_NFT) (from_ : AccountId)
    (id : TokenId) (s3 : Simple_NFT) :
    transfer_rest s from_ 0 id ≠ Outcome.ok s3 := by
  unfold transfer_rest
  cases hc : clear_approval s id with
  | none => simp only; intro hh; cases hh
  | some r =>
    cases r with
    | error e => simp only; intro hh; cases hh
    | ok s1 =>
      simp only
      cases hr : remove_token_from s1 from_ id with
      | error e => simp only; intro hh; cases hh
      | ok s2 =>
        simp only [add_token_to_err s2 id]
        intro hh; cases hh

theorem transfer_token_from_to_null_not_ok (s : Simple_NFT)
    (caller from_ : AccountId) (id : TokenId) (na : Bool) (s3 : Simple_NFT) :
    transfer_token_from s caller from_ 0 id na ≠ Outcome.ok s3 := by
  unfold transfer_token_from
  by_cases hex : exists_ s id = false
  · rw [if_pos hex]; intro hh; cases hh
  · rw [if_neg hex]
    by_cases hg : na = false ∧ owner_of s id ≠ some caller
    · rw [if_pos hg]; intro hh; cases hh
    · rw [if_neg hg]
      cases na with
      | false =>
        rw [if_neg (fun hh : false = true => Bool.noConfusion hh)]
        exact transfer_rest_to_null_not_ok s from_ id s3
      | true =>
        rw [if_pos rfl]
        cases ha : approved_for_token s id caller with
        | none => simp only; intro hh; cases hh
        | some b =>
          cases b with
          | false => intro hh; cases hh
          | true => exact transfer_rest_to_null_not_ok s from_ id s3

/-! ### Claim theorems: error handling and numerics -/

/-- The state left behind by the reachable call `transfer(null, 188)` made by
the constructor account `1` on a freshly constructed contract. -/
def c2s : Simple_NFT := postState (new 1) (transfer (new 1) 1 0 188)

/-- Claim C2 (code bug): a `transfer` to the null identity by the owner of an
existing token returns `Err(NotAllowed)` yet commits partial mutation: the
token's owner entry is gone (the token is burned: it no longer exists) and
the owner's counter has dropped from 10 to 9, contradicting the claim that a
failed transfer leaves `owner_of`, `balance_of` and the approval state
unchanged. -/
theorem C2_code_bug_eval :
    transfer (new 1) 1 0 188 = Outcome.err Error.NotAllowed c2s
    ∧ owner_of (new 1) 188 = some 1
    ∧ balance_of (new 1) 1 = 10
    ∧ owner_of c2s 188 = none
    ∧ balance_of c2s 1 = 9
    ∧ exists_ c2s 188 = false := by decide

/-- Claim C3 (counterexample): the freshly constructed contract is reachable,
yet `get_approved` and `is_approved` on the never-minted token `1` trap (the
source calls `owner.expect(..)` on `None`), refuting the claim that no public
operation panics on a reachable input. -/
theorem C3_counterexample :
    Reachable (new 1)
    ∧ get_approved (new 1) 1 = none
    ∧ is_approved (new 1) 1 2 = none :=
  ⟨Reachable.newC 1, by decide, by decide⟩

/-- Claim C3 (amended): `approve`, `transfer` and `transfer_from` never
panic, on any state and arguments; `get_approved` panics exactly when the
token has no owner, and `is_approved` panics exactly when the queried user is
non-null and the token has no owner. -/
theorem C3_amended_thm (s : Simple_NFT) (caller a b : AccountId) (id : TokenId) :
    approve s caller a id ≠ Outcome.trap
    ∧ transfer s caller a id ≠ Outcome.trap
    ∧ transfer_from s caller a b id ≠ Outcome.trap
    ∧ ((get_approved s id).isSome = true ↔ (owner_of s id).isSome = true)
    ∧ ((is_approved s id a).isSome = true ↔ (a = 0 ∨ (owner_of s id).isSome = true)) := by
  refine ⟨approve_no_trap s caller a id,
    transfer_token_from_no_trap s caller caller a id false,
    transfer_token_from_no_trap s caller a b id true, ?_, ?_⟩
  · unfold get_approved
    cases h : owner_of s id with
    | none => simp
    | some ow => simp
  · unfold is_approved approved_for_token
    by_cases hu : a = 0
    · rw [if_pos hu]
      simp [hu]
    · rw [if_neg hu]
      cases h : owner_of s id with
      | none => simp [hu]
      | some ow => simp [hu]

/-- Claim C4 (counterexample): `decrease_counter_of` on a map holding a
counter entry with value `0` does not report `CannotFetchValue`; it succeeds
and silently wraps the `u32` counter around to `2^32 - 1`. -/
theorem C4_counterexample :
    decrease_counter_of [(1, 0)] 1 = Except.ok [(1, 4294967295)]
    ∧ decrease_counter_of [(1, 0)] 1 ≠ Except.error Error.CannotFetchValue := by
  decide

/-- Claim C4 (amended): the decrement discipline only detects a missing
counter entry (`CannotFetchValue`); a present entry is decremented with
wrapping `u32` subtraction, so a stored zero underflows silently. -/
theorem C4_amended_thm (hmap : Map AccountId Nat) (of : AccountId) :
    (Map.get hmap of = none →
      decrease_counter_of hmap of = Except.error Error.CannotFetchValue)
    ∧ ∀ c : Nat, Map.get hmap of = some c →
        decrease_counter_of hmap of =
          Except.ok (Map.insert hmap of ((c + (U32_MOD - 1)) % U32_MOD)) := by
  constructor
  · intro h
    unfold decrease_counter_of
    simp only [h]
  · intro c h
    unfold decrease_counter_of
    simp only [h]

/-- Witness for the amended claim C4 at the concrete map `[(7, 0)]`. -/
theorem C4_amended_witness :
    Map.get ([(7, 0)] : Map AccountId Nat) 7 = some 0
    ∧ decrease_counter_of [(7, 0)] 7 =
        Except.ok (Map.insert ([(7, 0)] : Map AccountId Nat) 7
          ((0 + (U32_MOD - 1)) % U32_MOD)) :=
  ⟨by decide, (C4_amended_thm [(7, 0)] 7).2 0 (by decide)⟩

/-- Claim C5 (counterexample): adding an already-owned token to the null
identity fails with `TokenExists`, not `NotAllowed` (the occupancy check runs
first), and a transfer of a nonexistent token to the null identity fails with
`TokenNotFound`, not `NotAllowed` — refuting the claim that these always fail
with `NotAllowed`. -/
theorem C5_counterexample :
    add_token_to (new 1) 0 188 = Except.error Error.TokenExists
    ∧ add_token_to (new 1) 0 188 ≠ Except.error Error.NotAllowed
    ∧ transfer (new 1) 2 0 1 = Outcome.err Error.TokenNotFound (new 1)
    ∧ transfer (new 1) 2 0 1 ≠ Outcome.err Error.NotAllowed (new 1) := by
  decide

/-- Claim C5 (amended): the null identity is never accepted: `add_token_to`
with the null destination always errs (`NotAllowed` when the token has no
owner entry, `TokenExists` otherwise), `approve` with the null delegate
always fails with `NotAllowed`, and a `transfer` to the null identity never
succeeds and never panics. -/
theorem C5_amended_thm (s : Simple_NFT) (caller : AccountId) (t : TokenId) :
    add_token_to s 0 t = Except.error
      (if Map.containsKey s.token_owner t = true then Error.TokenExists
       else Error.NotAllowed)
    ∧ approve s caller 0 t = Outcome.err Error.NotAllowed s
    ∧ (∀ s3, transfer s caller 0 t ≠ Outcome.ok s3)
    ∧ transfer s caller 0 t ≠ Outcome.trap :=
  ⟨add_token_to_err s t, approve_null_delegate s caller t,
    fun s3 => transfer_token_from_to_null_not_ok s caller caller t false s3,
    transfer_token_from_no_trap s caller caller 0 t false⟩

/-- Claim C6 (confirmed): a `transfer` or `transfer_from` of a token with no
owner entry fails with `TokenNotFound` for every caller, source and
destination, the returned state being exactly the pre-state (the existence
check is the first check and short-circuits before any authorization check or
mutation). -/
theorem C6_nonexistent_token (s : Simple_NFT) (caller from_ to_ : AccountId)
    (id : TokenId) (h : owner_of s id = none) :
    transfer s caller to_ id = Outcome.err Error.TokenNotFound s
    ∧ transfer_from s caller from_ to_ id = Outcome.err Error.TokenNotFound s := by
  have hex : exists_ s id = false := by
    rw [exists_eq_isSome, h]
    rfl
  constructor
  · unfold transfer transfer_token_from
    rw [if_pos hex]
  · unfold transfer_from transfer_token_from
    rw [if_pos hex]

/-- Witness for claim C6: token `5` was never minted on a fresh contract. -/
theorem C6_witness :
    owner_of (new 1) 5 = none
    ∧ transfer (new 1) 2 4 5 = Outcome.err Error.TokenNotFound (new 1)
    ∧ transfer_from (new 1) 2 3 4 5 = Outcome.err Error.TokenNotFound (new 1) :=
  ⟨by decide, (C6_nonexistent_token (new 1) 2 3 4 5 (by decide)).1,
    (C6_nonexistent_token (new 1) 2 3 4 5 (by decide)).2⟩

/-- Claim C10 (confirmed): `approve` on a token with no owner entry returns
`Err(NotAllowed)` with the state unchanged — the owner-equality guard fails
before the approval-map insert and before the panicking `expect`. -/
theorem C10_approve_nonexistent (s : Simple_NFT) (caller to_ : AccountId)
    (id : TokenId) (h : owner_of s id = none) :
    approve s caller to_ id = Outcome.err Error.NotAllowed s := by
  apply approve_not_owner
  rw [h]
  intro hh
  cases hh

/-- Witness for claim C10: approving on the never-minted token `5`. -/
theorem C10_witness :
    owner_of (new 1) 5 = none
    ∧ approve (new 1) 2 3 5 = Outcome.err Error.NotAllowed (new 1) :=
  ⟨by decide, C10_approve_nonexistent (new 1) 2 3 5 (by decide)⟩

/-- Claim C9 (confirmed): `transfer_from` never checks that `from` is the
token's current owner.  If the token exists, the caller is its approved
delegate, `to` is non-null and `from` is any account with a present positive
counter entry, the call succeeds even though `from` is not the owner: the
actual owner `ow` loses the token's owner entry (the token now maps to `to`)
while `from`'s counter — not `ow`'s — is decremented. -/
theorem C9_transfer_from_ignores_from (s : Simple_NFT)
    (caller from_ to_ : AccountId) (id : TokenId) (ow : AccountId) (c : Nat)
    (hnodup : Map.NodupKeys s.token_owner)
    (hown : owner_of s id = some ow)
    (happr : is_approved s id caller = some true)
    (hto0 : to_ ≠ 0)
    (hcnt : Map.get s.owned_tokens_count from_ = some c)
    (hc1 : 0 < c) (hc2 : c < U32_MOD)
    (hfo : from_ ≠ ow) (htf : to_ ≠ from_) (hto : to_ ≠ ow) :
    ∃ s3, transfer_from s caller from_ to_ id = Outcome.ok s3
      ∧ owner_of s3 id = some to_
      ∧ owner_of s3 id ≠ some ow
      ∧ Map.get s3.owned_tokens_count from_ = some (c - 1)
      ∧ balance_of s3 ow = balance_of s ow := by
  have hex : ¬ (exists_ s id = false) := by
    rw [exists_eq_isSome, hown]
    intro hh
    cases hh
  have happr2 : approved_for_token s id caller = some true := happr
  unfold transfer_from transfer_token_from
  rw [if_neg hex,
    if_neg (fun hh : true = false ∧ _ => Bool.noConfusion hh.1),
    if_pos rfl]
  simp only [happr2]
  simp only [transfer_rest, clear_approval_eq s id ow hown]
  have hs1tok :
      ({ s with approvals_token := Map.erase s.approvals_token (ow, id) } :
        Simple_NFT).token_owner = s.token_owner := rfl
  have hcont : Map.containsKey
      ({ s with approvals_token := Map.erase s.approvals_token (ow, id) } :
        Simple_NFT).token_owner id = true := by
    rw [hs1tok, Map.containsKey_eq_isSome_get]
    unfold owner_of at hown
    rw [hown]
    rfl
  rw [remove_token_from_eq _ from_ id c hcont hcnt]
  simp only
  have hcont2 : Map.containsKey (Map.erase s.token_owner id) id = false :=
    Map.containsKey_erase_self s.token_owner id hnodup
  rw [add_token_to_eq _ to_ id hcont2 hto0]
  simp only
  refine ⟨_, rfl, ?_, ?_, ?_, ?_⟩
  · exact Map.get_insert_self _ id to_
  · show Map.get (Map.insert (Map.erase s.token_owner id) id to_) id ≠ some ow
    rw [Map.get_insert_self _ id to_]
    intro hh
    rw [Option.some.injEq] at hh
    exact hto hh
  · show Map.get (increase_counter_of
      (Map.insert s.owned_tokens_count from_ ((c + (U32_MOD - 1)) % U32_MOD)) to_)
        from_ = some (c - 1)
    have hmod : (c + (U32_MOD - 1)) % U32_MOD = c - 1 := by
      unfold U32_MOD at hc2 ⊢
      omega
    have hft : from_ ≠ to_ := fun he => htf he.symm
    unfold increase_counter_of
    cases hi : Map.get (Map.insert s.owned_tokens_count from_
        ((c + (U32_MOD - 1)) % U32_MOD)) to_ with
    | none =>
      simp only
      rw [Map.get_insert_ne _ to_ from_ 1 hft, Map.get_insert_self, hmod]
    | some cv =>
      simp only
      rw [Map.get_insert_ne _ to_ from_ _ hft, Map.get_insert_self, hmod]
  · show balance_of { s with
        token_owner := Map.insert (Map.erase s.token_owner id) id to_,
        owned_tokens_count := increase_counter_of
          (Map.insert s.owned_tokens_count from_ ((c + (U32_MOD - 1)) % U32_MOD)) to_,
        approvals_token := Map.erase s.approvals_token (ow, id) } ow = balance_of s ow
    unfold balance_of balance_of_or_zero
    have hot : ow ≠ to_ := fun he => hto he.symm
    have hof : ow ≠ from_ := fun he => hfo he.symm
    have hcounts : Map.get (increase_counter_of
        (Map.insert s.owned_tokens_count from_ ((c + (U32_MOD - 1)) % U32_MOD)) to_) ow
        = Map.get s.owned_tokens_count ow := by
      unfold increase_counter_of
      cases hi : Map.get (Map.insert s.owned_tokens_count from_
          ((c + (U32_MOD - 1)) % U32_MOD)) to_ with
      | none =>
        simp only
        rw [Map.get_insert_ne _ to_ ow 1 hot, Map.get_insert_ne _ from_ ow _ hof]
      | some cv =>
        simp only
        rw [Map.get_insert_ne _ to_ ow _ hot, Map.get_insert_ne _ from_ ow _ hof]
    rw [hcounts]

/-- A concrete state for the C9 witness: token `188` is owned by account `5`
which has approved account `9`; account `7` merely holds a counter entry. -/
def c9state : Simple_NFT :=
  { token_owner := [(188, 5)], owned_tokens_count := [(5, 1), (7, 3)],
    matedatas := [], approvals_token := [((5, 188), 9)] }

/-- Witness for claim C9: delegate `9` transfers token `188` "from" account
`7` (not the owner `5`) to account `2`; the call succeeds, the owner entry of
`5` is gone, `7`'s counter dropped from 3 to 2, `5`'s balance is unchanged. -/
theorem C9_witness :
    owner_of (postState c9state (transfer_from c9state 9 7 2 188)) 188 = some 2
    ∧ Map.get (postState c9state
        (transfer_from c9state 9 7 2 188)).owned_tokens_count 7 = some 2
    ∧ balance_of (postState c9state (transfer_from c9state 9 7 2 188)) 5 =
        balance_of c9state 5 := by
  rcases C9_transfer_from_ignores_from c9state 9 7 2 188 5 3 (by decide) (by decide)
    (by decide) (by decide) (by decide) (by decide) (by decide) (by decide)
    (by decide) (by decide) with ⟨s3, h1, h2, h3, h4, h5⟩
  rw [h1]
  exact ⟨h2, h4, h5⟩

/-- Closed form of the constructor for a non-null caller: ten tokens
`188..197` each owned by `A`, one counter entry `A = 10`, metadata tags
`20..29`, no approvals. -/
theorem new_eq (A : AccountId) (h : A ≠ 0) :
    new A = { token_owner := [(197, A), (196, A), (195, A), (194, A), (193, A), (192, A), (191, A), (190, A), (189, A), (188, A)], owned_tokens_count := [(A, 10)], matedatas := [(197, 29), (196, 28), (195, 27), (194, 26), (193, 25), (192, 24), (191, 23), (190, 22), (189, 21), (188, 20)], approvals_token := [] } := by
  have hr : List.range 10 = [0, 1, 2, 3, 4, 5, 6, 7, 8, 9] := by decide
  have h0 : init_step A { token_owner := [], owned_tokens_count := [], matedatas := [], approvals_token := [] } 0 = { token_owner := [(188, A)], owned_tokens_count := [(A, 1)], matedatas := [(188, 20)], approvals_token := [] } := by
    norm_num [init_step, add_token_to, Map.containsKey, Map.insert, Map.erase,
      Map.get, increase_counter_of, U32_MOD, TOKENID_INIT, MATEDATA_INIT, h]
  have h1 : init_step A { token_owner := [(188, A)], owned_tokens_count := [(A, 1)], matedatas := [(188, 20)], approvals_token := [] } 1 = { token_owner := [(189, A), (188, A)], owned_tokens_count := [(A, 2)], matedatas := [(189, 21), (188, 20)], approvals_token := [] } := by
    norm_num [init_step, add_token_to, Map.containsKey, Map.insert, Map.erase,
      Map.get, increase_counter_of, U32_MOD, TOKENID_INIT, MATEDATA_INIT, h]
  have h2 : init_step A { token_owner := [(189, A), (188, A)], owned_tokens_count := [(A, 2)], matedatas := [(189, 21), (188, 20)], approvals_token := [] } 2 = { token_owner := [(190, A), (189, A), (188, A)], owned_tokens_count := [(A, 3)], matedatas := [(190, 22), (189, 21), (188, 20)], approvals_token := [] } := by
    norm_num [init_step, add_token_to, Map.containsKey, Map.insert, Map.erase,
      Map.get, increase_counter_of, U32_MOD, TOKENID_INIT, MATEDATA_INIT, h]
  have h3 : init_step A { token_owner := [(190, A), (189, A), (188, A)], owned_tokens_count := [(A, 3)], matedatas := [(190, 22), (189, 21), (188, 20)], approvals_token := [] } 3 = { token_owner := [(191, A), (190, A), (189, A), (188, A)], owned_tokens_count := [(A, 4)], matedatas := [(191, 23), (190, 22), (189, 21), (188, 20)], approvals_token := [] } := by
    norm_num [init_step, add_token_to, Map.containsKey, Map.insert, Map.erase,
      Map.get, increase_counter_of, U32_MOD, TOKENID_INIT, MATEDATA_INIT, h]
  have h4 : init_step A { token_owner := [(191, A), (190, A), (189, A), (188, A)], owned_tokens_count := [(A, 4)], matedatas := [(191, 23), (190, 22), (189, 21), (188, 20)], approvals_token := [] } 4 = { token_owner := [(192, A), (191, A), (190, A), (189, A), (188, A)], owned_tokens_count := [(A, 5)], matedatas := [(192, 24), (191, 23), (190, 22), (189, 21), (188, 20)], approvals_token := [] } := by
    norm_num [init_step, add_token_to, Map.containsKey, Map.insert, Map.erase,
      Map.get, increase_counter_of, U32_MOD, TOKENID_INIT, MATEDATA_INIT, h]
  have h5 : init_step A { token_owner := [(192, A), (191, A), (190, A), (189, A), (188, A)], owned_tokens_count := [(A, 5)], matedatas := [(192, 24), (191, 23), (190, 22), (189, 21), (188, 20)], approvals_token := [] } 5 = { token_owner := [(193, A), (192, A), (191, A), (190, A), (189, A), (188, A)], owned_tokens_count := [(A, 6)], matedatas := [(193, 25), (192, 24), (191, 23), (190, 22), (189, 21), (188, 20)], approvals_token := [] } := by
    norm_num [init_step, add_token_to, Map.containsKey, Map.insert, Map.erase,
      Map.get, increase_counter_of, U32_MOD, TOKENID_INIT, MATEDATA_INIT, h]
  have h6 : init_step A { token_owner := [(193, A), (192, A), (191, A), (190, A), (189, A), (188, A)], owned_tokens_count := [(A, 6)], matedatas := [(193, 25), (192, 24), (191, 23), (190, 22), (189, 21), (188, 20)], approvals_token := [] } 6 = { token_owner := [(194, A), (193, A), (192, A), (191, A), (190, A), (189, A), (188, A)], owned_tokens_count := [(A, 7)], matedatas := [(194, 26), (193, 25), (192, 24), (191, 23), (190, 22), (189, 21), (188, 20)], approvals_token := [] } := by
    norm_num [init_step, add_token_to, Map.containsKey, Map.insert, Map.erase,
      Map.get, increase_counter_of, U32_MOD, TOKENID_INIT, MATEDATA_INIT, h]
  have h7 : init_step A { token_owner := [(194, A), (193, A), (192, A), (191, A), (190, A), (189, A), (188, A)], owned_tokens_count := [(A, 7)], matedatas := [(194, 26), (193, 25), (192, 24), (191, 23), (190, 22), (189, 21), (188, 20)], approvals_token := [] } 7 = { token_owner := [(195, A), (194, A), (193, A), (192, A), (191, A), (190, A), (189, A), (188, A)], owned_tokens_count := [(A, 8)], matedatas := [(195, 27), (194, 26), (193, 25), (192, 24), (191, 23), (190, 22), (189, 21), (188, 20)], approvals_token := [] } := by
    norm_num [init_step, add_token_to, Map.containsKey, Map.insert, Map.erase,
      Map.get, increase_counter_of, U32_MOD, TOKENID_INIT, MATEDATA_INIT, h]
  have h8 : init_step A { token_owner := [(195, A), (194, A), (193, A), (192, A), (191, A), (190, A), (189, A), (188, A)], owned_tokens_count := [(A, 8)], matedatas := [(195, 27), (194, 26), (193, 25), (192, 24), (191, 23), (190, 22), (189, 21), (188, 20)], approvals_token := [] } 8 = { token_owner := [(196, A), (195, A), (194, A), (193, A), (192, A), (191, A), (190, A), (189, A), (188, A)], owned_tokens_count := [(A, 9)], matedatas := [(196, 28), (195, 27), (194, 26), (193, 25), (192, 24), (191, 23), (190, 22), (189, 21), (188, 20)], approvals_token := [] } := by
    norm_num [init_step, add_token_to, Map.containsKey, Map.insert, Map.erase,
      Map.get, increase_counter_of, U32_MOD, TOKENID_INIT, MATEDATA_INIT, h]
  have h9 : init_step A { token_owner := [(196, A), (195, A), (194, A), (193, A), (192, A), (191, A), (190, A), (189, A), (188, A)], owned_tokens_count := [(A, 9)], matedatas := [(196, 28), (195, 27), (194, 26), (193, 25), (192, 24), (191, 23), (190, 22), (189, 21), (188, 20)], approvals_token := [] } 9 = { token_owner := [(197, A), (196, A), (195, A), (194, A), (193, A), (192, A), (191, A), (190, A), (189, A), (188, A)], owned_tokens_count := [(A, 10)], matedatas := [(197, 29), (196, 28), (195, 27), (194, 26), (193, 25), (192, 24), (191, 23), (190, 22), (189, 21), (188, 20)], approvals_token := [] } := by
    norm_num [init_step, add_token_to, Map.containsKey, Map.insert, Map.erase,
      Map.get, increase_counter_of, U32_MOD, TOKENID_INIT, MATEDATA_INIT, h]
  unfold new inherent_init
  rw [hr]
  simp only [List.foldl_cons, List.foldl_nil]
  rw [h0, h1, h2, h3, h4, h5, h6, h7, h8, h9]

/-- Claim C8 (confirmed): construction by a non-null caller `A` mints exactly
ten tokens with sequential ids `TOKENID_INIT .. TOKENID_INIT + 9`, each owned
by `A` and tagged `MATEDATA_INIT` plus the loop offset; `balance_of A = 10`
and `owner_of TOKENID_INIT = some A`; no other token exists and no other
account owns anything. -/
theorem C8_constructor (A : AccountId) (h : A ≠ 0) :
    balance_of (new A) A = 10
    ∧ owner_of (new A) TOKENID_INIT = some A
    ∧ (∀ i, i < 10 → owner_of (new A) (TOKENID_INIT + i) = some A
        ∧ Map.get (new A).matedatas (TOKENID_INIT + i) = some (MATEDATA_INIT + i))
    ∧ (∀ t o, owner_of (new A) t = some o →
        o = A ∧ TOKENID_INIT ≤ t ∧ t ≤ TOKENID_INIT + 9) := by
  refine ⟨?_, ?_, ?_, ?_⟩
  · unfold balance_of balance_of_or_zero
    rw [new_eq A h]
    norm_num [Map.get]
  · unfold owner_of
    rw [new_eq A h]
    norm_num [Map.get, TOKENID_INIT]
  · intro i hi
    unfold owner_of
    rw [new_eq A h]
    interval_cases i <;>
      constructor <;>
      norm_num [Map.get, TOKENID_INIT, MATEDATA_INIT]
  · intro t o hto
    unfold owner_of at hto
    rw [new_eq A h] at hto
    have hmem := Map.get_mem _ t o hto
    simp only [List.mem_cons, List.not_mem_nil, or_false, Prod.mk.injEq] at hmem
    unfold TOKENID_INIT
    rcases hmem with hm | hm | hm | hm | hm | hm | hm | hm | hm | hm <;>
      · obtain ⟨rfl, rfl⟩ := hm
        exact ⟨rfl, by norm_num, by norm_num⟩

/-- Witness for claim C8 at the concrete constructor account `1`. -/
theorem C8_witness :
    (1 : AccountId) ≠ 0
    ∧ balance_of (new 1) 1 = 10
    ∧ owner_of (new 1) TOKENID_INIT = some 1
    ∧ owner_of (new 1) (TOKENID_INIT + 2) = some 1
    ∧ Map.get (new 1).matedatas (TOKENID_INIT + 2) = some (MATEDATA_INIT + 2) :=
  ⟨by decide, (C8_constructor 1 (by decide)).1, (C8_constructor 1 (by decide)).2.1,
    ((C8_constructor 1 (by decide)).2.2.1 2 (by decide)).1,
    ((C8_constructor 1 (by decide)).2.2.1 2 (by decide)).2⟩

/-! ### Post-state shapes of the three mutation primitives -/

/-- The state after a successful `clear_approval` for owner `ow`. -/
def clearSt (s : Simple_NFT) (ow : AccountId) (id : TokenId) : Simple_NFT :=
  { s with approvals_token := Map.erase s.approvals_token (ow, id) }

/-- The state after a successful `remove_token_from` that found counter `c`. -/
def removeSt (s : Simple_NFT) (from_ : AccountId) (id : TokenId) (c : Nat) :
    Simple_NFT :=
  { s with
    token_owner := Map.erase s.token_owner id,
    owned_tokens_count :=
      Map.insert s.owned_tokens_count from_ ((c + (U32_MOD - 1)) % U32_MOD) }

/-- The state after a successful `add_token_to`. -/
def addSt (s : Simple_NFT) (to_ : AccountId) (id : TokenId) : Simple_NFT :=
  { s with
    token_owner := Map.insert s.token_owner id to_,
    owned_tokens_count := increase_counter_of s.owned_tokens_count to_ }

/-- `clear_approval` restated with the `clearSt` shape. -/
theorem clear_approval_eq2 (s : Simple_NFT) (id : TokenId) (ow : AccountId)
    (h : owner_of s id = some ow) :
    clear_approval s id = some (Except.ok (clearSt s ow id)) :=
  clear_approval_eq s id ow h

/-- `remove_token_from` restated with the `removeSt` shape. -/
theorem remove_token_from_eq2 (s : Simple_NFT) (from_ : AccountId) (id : TokenId)
    (c : Nat) (hc : Map.containsKey s.token_owner id = true)
    (hget : Map.get s.owned_tokens_count from_ = some c) :
    remove_token_from s from_ id = Except.ok (removeSt s from_ id c) :=
  remove_token_from_eq s from_ id c hc hget

/-- `add_token_to` restated with the `addSt` shape. -/
theorem add_token_to_eq2 (s : Simple_NFT) (to_ : AccountId) (id : TokenId)
    (hc : Map.containsKey s.token_owner id = false) (hto : to_ ≠ 0) :
    add_token_to s to_ id = Except.ok (addSt s to_ id) :=
  add_token_to_eq s to_ id hc hto

/-- Exhaustive description of `transfer_rest` once the token has an owner:
either the `from` counter is missing (error after the approval was already
cleared), or the counter is present and the `add` step either hits an
occupied entry, or the null destination, or everything succeeds. -/
theorem transfer_rest_result (s : Simple_NFT) (from_ to_ : AccountId)
    (id : TokenId) (ow : AccountId) (hown : owner_of s id = some ow) :
    (Map.get s.owned_tokens_count from_ = none ∧
      transfer_rest s from_ to_ id =
        Outcome.err Error.CannotFetchValue (clearSt s ow id))
    ∨ ∃ c, Map.get s.owned_tokens_count from_ = some c ∧
        ((Map.containsKey (Map.erase s.token_owner id) id = true ∧
            transfer_rest s from_ to_ id =
              Outcome.err Error.TokenExists (removeSt (clearSt s ow id) from_ id c))
          ∨ (Map.containsKey (Map.erase s.token_owner id) id = false ∧ to_ = 0 ∧
            transfer_rest s from_ to_ id =
              Outcome.err Error.NotAllowed (removeSt (clearSt s ow id) from_ id c))
          ∨ (Map.containsKey (Map.erase s.token_owner id) id = false ∧ to_ ≠ 0 ∧
            transfer_rest s from_ to_ id =
              Outcome.ok (addSt (removeSt (clearSt s ow id) from_ id c) to_ id))) := by
  have hcont : Map.containsKey (clearSt s ow id).token_owner id = true := by
    show Map.containsKey s.token_owner id = true
    rw [Map.containsKey_eq_isSome_get]
    unfold owner_of at hown
    rw [hown]
    rfl
  unfold transfer_rest
  simp only [clear_approval_eq2 s id ow hown]
  cases hg : Map.get s.owned_tokens_count from_ with
  | none =>
    left
    refine ⟨rfl, ?_⟩
    have hrem := remove_token_from_no_counter (clearSt s ow id) from_ id hcont hg
    simp only [hrem]
  | some c =>
    right
    refine ⟨c, rfl, ?_⟩
    have hrem := remove_token_from_eq2 (clearSt s ow id) from_ id c hcont hg
    simp only [hrem]
    cases hcb : Map.containsKey (Map.erase s.token_owner id) id with
    | true =>
      left
      refine ⟨rfl, ?_⟩
      have hadd : add_token_to (removeSt (clearSt s ow id) from_ id c) to_ id =
          Except.error Error.TokenExists := by
        unfold add_token_to
        rw [if_pos (show Map.containsKey
          (removeSt (clearSt s ow id) from_ id c).token_owner id = true from hcb)]
      simp only [hadd]
    | false =>
      by_cases hto : to_ = 0
      · right; left
        refine ⟨rfl, hto, ?_⟩
        subst hto
        have hadd := add_token_to_err (removeSt (clearSt s ow id) from_ id c) id
        rw [if_neg (show ¬ (Map.containsKey
          (removeSt (clearSt s ow id) from_ id c).token_owner id = true) from by
            rw [show (removeSt (clearSt s ow id) from_ id c).token_owner =
              Map.erase s.token_owner id from rfl, hcb]
            intro hh; cases hh)] at hadd
        simp only [hadd]
      · right; right
        refine ⟨rfl, hto, ?_⟩
        have hadd := add_token_to_eq2 (removeSt (clearSt s ow id) from_ id c) to_ id
          (show Map.containsKey
            (removeSt (clearSt s ow id) from_ id c).token_owner id = false from hcb)
          hto
        simp only [hadd]

/-- The post-state of `transfer_token_from` is either the pre-state (one of
the early returns) or the post-state of the mutation tail, in which case the
token has an owner. -/
theorem postState_ttf_cases (s : Simple_NFT) (caller from_ to_ : AccountId)
    (id : TokenId) (na : Bool) :
    postState s (transfer_token_from s caller from_ to_ id na) = s
    ∨ ∃ ow, owner_of s id = some ow ∧
        postState s (transfer_token_from s caller from_ to_ id na) =
          postState s (transfer_rest s from_ to_ id) := by
  unfold transfer_token_from
  by_cases hex : exists_ s id = false
  · rw [if_pos hex]
    left
    rfl
  · rw [if_neg hex]
    have how : (owner_of s id).isSome = true := by
      rw [exists_eq_isSome] at hex
      cases hq : (owner_of s id).isSome
      · rw [hq] at hex
        exact absurd rfl hex
      · rfl
    rcases Option.isSome_iff_exists.mp how with ⟨ow, hown⟩
    by_cases hg : na = false ∧ owner_of s id ≠ some caller
    · rw [if_pos hg]
      left
      rfl
    · rw [if_neg hg]
      cases na with
      | false =>
        rw [if_neg (fun hh : false = true => Bool.noConfusion hh)]
        right
        exact ⟨ow, hown, rfl⟩
      | true =>
        rw [if_pos rfl]
        cases ha : approved_for_token s id caller with
        | none =>
          left
          rfl
        | some b =>
          cases b with
          | false =>
            left
            rfl
          | true =>
            right
            exact ⟨ow, hown, rfl⟩

/-- A direct `transfer` by a non-owner leaves the state unchanged. -/
theorem post_transfer_not_owner (s : Simple_NFT) (caller dest : AccountId)
    (id : TokenId) (h : owner_of s id ≠ some caller) :
    postState s (transfer s caller dest id) = s := by
  unfold transfer transfer_token_from
  by_cases hex : exists_ s id = false
  · rw [if_pos hex]
    rfl
  · rw [if_neg hex, if_pos ⟨rfl, h⟩]
    rfl

/-- The three possible outcomes of `approve`: untouched state on failure, or
the owner granted a non-null delegate and the entry was inserted. -/
theorem approve_cases (s : Simple_NFT) (caller to_ : AccountId) (id : TokenId) :
    postState s (approve s caller to_ id) = s
    ∨ (owner_of s id = some caller ∧ to_ ≠ 0 ∧
        postState s (approve s caller to_ id) =
          { s with approvals_token :=
              Map.insert s.approvals_token (caller, id) to_ }) := by
  by_cases h : owner_of s id = some caller
  · by_cases hto : to_ = 0
    · left
      subst hto
      rw [approve_null_delegate]
      rfl
    · right
      refine ⟨h, hto, ?_⟩
      rw [approve_ok s caller to_ id h hto]
      rfl
  · left
    rw [approve_not_owner s caller to_ id h]
    rfl

/-! ### The balance/ownership counting invariant (claim C1) -/

/-- The ledger counting invariant: token-owner keys are unique, at most the
ten minted tokens exist, and every account's stored balance equals the number
of token-owner entries holding that account. -/
def LedgerInv (s : Simple_NFT) : Prop :=
  Map.NodupKeys s.token_owner ∧ s.token_owner.length ≤ 10 ∧
  ∀ o : AccountId, balance_of s o = Map.countVal s.token_owner o

theorem ledgerInv_new (A : AccountId) : LedgerInv (new A) := by
  by_cases h : A = 0
  · subst h
    have hnew : new 0 =
        { token_owner := [], owned_tokens_count := [],
          matedatas := [(197, 29), (196, 28), (195, 27), (194, 26), (193, 25),
            (192, 24), (191, 23), (190, 22), (189, 21), (188, 20)],
          approvals_token := [] } := by decide
    rw [hnew]
    refine ⟨by decide, by decide, ?_⟩
    intro o
    unfold balance_of balance_of_or_zero
    simp [Map.get, Map.countVal]
  · rw [new_eq A h]
    refine ⟨?_, ?_, ?_⟩
    · show Map.NodupKeys [(197, A), (196, A), (195, A), (194, A), (193, A),
        (192, A), (191, A), (190, A), (189, A), (188, A)]
      unfold Map.NodupKeys
      rw [show List.map Prod.fst [(197, A), (196, A), (195, A), (194, A), (193, A),
        (192, A), (191, A), (190, A), (189, A), (188, A)] =
        [197, 196, 195, 194, 193, 192, 191, 190, 189, 188] from rfl]
      decide
    · show (10 : Nat) ≤ 10
      exact Nat.le_refl 10
    · intro o
      unfold balance_of balance_of_or_zero
      by_cases ho : o = A
      · subst ho
        simp [Map.get, Map.countVal]
      · have hne : ¬ A = o := fun he => ho he.symm
        simp [Map.get, Map.countVal, hne]

theorem ledgerInv_clearSt (s : Simple_NFT) (ow : AccountId) (id : TokenId)
    (h : LedgerInv s) : LedgerInv (clearSt s ow id) := h

theorem ledgerInv_removeSt (s : Simple_NFT) (from_ : AccountId) (id : TokenId)
    (c : Nat) (hInv : LedgerInv s) (hown : owner_of s id = some from_)
    (hc : Map.get s.owned_tokens_count from_ = some c) :
    Map.NodupKeys (removeSt s from_ id c).token_owner
    ∧ (removeSt s from_ id c).token_owner.length + 1 = s.token_owner.length
    ∧ ∀ o : AccountId, balance_of (removeSt s from_ id c) o =
        Map.countVal (removeSt s from_ id c).token_owner o := by
  obtain ⟨hnd, hlen, hcnt⟩ := hInv
  have howg : Map.get s.token_owner id = some from_ := hown
  have hcv : c = Map.countVal s.token_owner from_ := by
    have hb := hcnt from_
    unfold balance_of balance_of_or_zero at hb
    rw [hc] at hb
    exact hb
  have hmem : (id, from_) ∈ s.token_owner := Map.get_mem _ id from_ howg
  have hpos : 1 ≤ Map.countVal s.token_owner from_ :=
    Map.countVal_pos_of_mem _ id from_ hmem
  have hcle : Map.countVal s.token_owner from_ ≤ s.token_owner.length :=
    Map.countVal_le_length _ _
  have hcontains : Map.containsKey s.token_owner id = true := by
    rw [Map.containsKey_eq_isSome_get, howg]
    rfl
  refine ⟨Map.nodupKeys_erase _ _ hnd,
    Map.length_erase_of_contains _ _ hcontains, ?_⟩
  intro o
  show (Map.get (Map.insert s.owned_tokens_count from_
      ((c + (U32_MOD - 1)) % U32_MOD)) o).getD 0
    = Map.countVal (Map.erase s.token_owner id) o
  have herase := Map.countVal_erase s.token_owner id from_ o hnd howg
  by_cases ho : o = from_
  · subst ho
    rw [Map.get_insert_self]
    have hmod : (c + (U32_MOD - 1)) % U32_MOD = c - 1 := by
      unfold U32_MOD
      omega
    rw [hmod]
    rw [if_pos rfl] at herase
    show c - 1 = Map.countVal (Map.erase s.token_owner id) o
    omega
  · rw [Map.get_insert_ne _ _ _ _ ho]
    rw [if_neg (show ¬ from_ = o from fun he => ho he.symm)] at herase
    have hb := hcnt o
    unfold balance_of balance_of_or_zero at hb
    omega

theorem ledgerInv_addSt (s : Simple_NFT) (to_ : AccountId) (id : TokenId)
    (hnd : Map.NodupKeys s.token_owner) (hlen : s.token_owner.length ≤ 9)
    (hcnt : ∀ o : AccountId, balance_of s o = Map.countVal s.token_owner o)
    (hcb : Map.containsKey s.token_owner id = false) :
    LedgerInv (addSt s to_ id) := by
  have hins : Map.insert s.token_owner id to_ = (id, to_) :: s.token_owner := by
    unfold Map.insert
    rw [Map.erase_of_not_contains _ _ hcb]
  refine ⟨?_, ?_, ?_⟩
  · show Map.NodupKeys (Map.insert s.token_owner id to_)
    exact Map.nodupKeys_insert _ _ _ hnd
  · show (Map.insert s.token_owner id to_).length ≤ 10
    rw [hins]
    simp only [List.length_cons]
    omega
  · intro o
    show (Map.get (increase_counter_of s.owned_tokens_count to_) o).getD 0
        = Map.countVal (Map.insert s.token_owner id to_) o
    rw [hins]
    have hb := hcnt o
    unfold balance_of balance_of_or_zero at hb
    simp only [Map.countVal]
    by_cases ho : o = to_
    · subst ho
      rw [if_pos rfl]
      unfold increase_counter_of
      cases hg : Map.get s.owned_tokens_count o with
      | none =>
        simp only
        rw [Map.get_insert_self]
        rw [hg] at hb
        simp only [Option.getD_none] at hb
        simp only [Option.getD_some]
        omega
      | some cv =>
        simp only
        rw [Map.get_insert_self]
        rw [hg] at hb
        simp only [Option.getD_some] at hb
        simp only [Option.getD_some]
        have hle : Map.countVal s.token_owner o ≤ s.token_owner.length :=
          Map.countVal_le_length _ _
        have hmod : (cv + 1) % U32_MOD = cv + 1 := by
          unfold U32_MOD
          omega
        rw [hmod]
        omega
    · rw [if_neg (show ¬ to_ = o from fun he => ho he.symm)]
      unfold increase_counter_of
      cases hg : Map.get s.owned_tokens_count to_ with
      | none =>
        simp only
        rw [Map.get_insert_ne _ _ _ _ ho]
        omega
      | some cv =>
        simp only
        rw [Map.get_insert_ne _ _ _ _ ho]
        omega

theorem ledgerInv_ttf_honest (s : Simple_NFT) (caller from_ to_ : AccountId)
    (id : TokenId) (na : Bool) (hInv : LedgerInv s)
    (hown : owner_of s id = some from_) :
    LedgerInv (postState s (transfer_token_from s caller from_ to_ id na)) := by
  rcases postState_ttf_cases s caller from_ to_ id na with heq | ⟨ow, hown2, heq⟩
  · rw [heq]
    exact hInv
  · rw [heq]
    have howeq : ow = from_ := by
      rw [hown] at hown2
      exact (Option.some.inj hown2).symm
    subst howeq
    have hclearInv : LedgerInv (clearSt s ow id) := ledgerInv_clearSt s ow id hInv
    have hown1 : owner_of (clearSt s ow id) id = some ow := hown
    rcases transfer_rest_result s ow to_ id ow hown with ⟨hg, hrw⟩ | ⟨c, hg, hcase⟩
    · rw [hrw]
      exact hclearInv
    · obtain ⟨hrnd, hrlen, hrcnt⟩ := ledgerInv_removeSt (clearSt s ow id) ow id c
        hclearInv hown1
        (show Map.get (clearSt s ow id).owned_tokens_count ow = some c from hg)
      have hclen : (clearSt s ow id).token_owner.length = s.token_owner.length := rfl
      have h10 : s.token_owner.length ≤ 10 := hInv.2.1
      have hlen10 : (removeSt (clearSt s ow id) ow id c).token_owner.length ≤ 10 := by
        omega
      have hlen9 : (removeSt (clearSt s ow id) ow id c).token_owner.length ≤ 9 := by
        omega
      rcases hcase with ⟨hcb, hrw⟩ | ⟨hcb, hto, hrw⟩ | ⟨hcb, hto, hrw⟩
      · rw [hrw]
        exact ⟨hrnd, hlen10, hrcnt⟩
      · rw [hrw]
        exact ⟨hrnd, hlen10, hrcnt⟩
      · rw [hrw]
        exact ledgerInv_addSt (removeSt (clearSt s ow id) ow id c) to_ id hrnd hlen9
          hrcnt
          (show Map.containsKey
            (removeSt (clearSt s ow id) ow id c).token_owner id = false from hcb)

theorem ledgerInv_approve (s : Simple_NFT) (caller to_ : AccountId) (id : TokenId)
    (hInv : LedgerInv s) : LedgerInv (postState s (approve s caller to_ id)) := by
  rcases approve_cases s caller to_ id with heq | ⟨_, _, heq⟩ <;> rw [heq]
  · exact hInv
  · exact hInv

theorem ledgerInv_reachableHonest (s : Simple_NFT) (h : ReachableHonest s) :
    LedgerInv s := by
  induction h with
  | newC caller => exact ledgerInv_new caller
  | approveC s caller to_ id _ ih => exact ledgerInv_approve s caller to_ id ih
  | transferC s caller dest id _ ih =>
    by_cases hc : owner_of s id = some caller
    · exact ledgerInv_ttf_honest s caller caller dest id false ih hc
    · rw [post_transfer_not_owner s caller dest id hc]
      exact ih
  | transferFromC s caller from_ to_ id _ hhon ih =>
    exact ledgerInv_ttf_honest s caller from_ to_ id true ih hhon

/-- First state of the C1 counterexample run: account `1` constructs the
contract and direct-transfers token `188` to account `2`. -/
def c1s1 : Simple_NFT := postState (new 1) (transfer (new 1) 1 2 188)

/-- Second state: account `1` approves account `2` for token `189`. -/
def c1s2 : Simple_NFT := postState c1s1 (approve c1s1 1 2 189)

/-- Third state: delegate `2` calls `transfer_from(from = 2, to = 3, 189)`,
passing itself — not the owner `1` — as `from`. -/
def c1s3 : Simple_NFT := postState c1s2 (transfer_from c1s2 2 2 3 189)

/-- Claim C1 (counterexample): the state `c1s3` is reachable by a
constructor/transfer/approve/transfer_from sequence, yet account `1`'s
stored balance (9) differs from the number of tokens it owns (8): the
delegated transfer decremented `from = 2`'s counter instead of the owner's. -/
theorem C1_counterexample :
    Reachable c1s3
    ∧ balance_of c1s3 1 ≠ Set.ncard {t : TokenId | owner_of c1s3 t = some 1} := by
  constructor
  · exact Reachable.transferFromC c1s2 2 2 3 189
      (Reachable.approveC c1s1 1 2 189
        (Reachable.transferC (new 1) 1 2 188 (Reachable.newC 1)))
  · have hn : Map.NodupKeys c1s3.token_owner := by decide
    have h1 : balance_of c1s3 1 = 9 := by decide
    have h2 : Map.countVal c1s3.token_owner 1 = 8 := by decide
    rw [h1]
    intro hcon
    rw [show {t : TokenId | owner_of c1s3 t = some 1} =
        {t : TokenId | Map.get c1s3.token_owner t = some 1} from rfl,
      Map.ncard_get_eq_countVal c1s3.token_owner hn 1, h2] at hcon
    exact absurd hcon (by decide)

/-- Claim C1 (amended): in every state reachable when each `transfer_from`
call passes the token's current owner as `from`, every account's balance
equals the number of tokens it owns. -/
theorem C1_amended_thm (s : Simple_NFT) (h : ReachableHonest s) (o : AccountId) :
    balance_of s o = Set.ncard {t : TokenId | owner_of s t = some o} := by
  have hInv := ledgerInv_reachableHonest s h
  rw [hInv.2.2 o,
    show {t : TokenId | owner_of s t = some o} =
      {t : TokenId | Map.get s.token_owner t = some o} from rfl,
    Map.ncard_get_eq_countVal s.token_owner hInv.1 o]

/-- Witness for the amended claim C1 at the freshly constructed contract. -/
theorem C1_amended_witness :
    balance_of (new 1) 1 = Set.ncard {t : TokenId | owner_of (new 1) t = some 1} :=
  C1_amended_thm (new 1) (ReachableHonest.newC 1) 1

/-! ### The approval-key invariant (claim C7) -/

/-- Approval-registry invariant of all reachable states: the approval map has
unique keys and every entry `(o, t) ↦ d` is keyed by the token's current
owner `o`. -/
def ApprovalInv (s : Simple_NFT) : Prop :=
  Map.NodupKeys s.approvals_token ∧
  ∀ (o : AccountId) (t : TokenId) (d : AccountId),
    Map.get s.approvals_token (o, t) = some d → owner_of s t = some o

theorem add_token_to_approvals (s : Simple_NFT) (to_ : AccountId) (id : TokenId)
    (t : Simple_NFT) (h : add_token_to s to_ id = Except.ok t) :
    t.approvals_token = s.approvals_token := by
  unfold add_token_to at h
  by_cases h1 : Map.containsKey s.token_owner id = true
  · rw [if_pos h1] at h
    cases h
  · rw [if_neg h1] at h
    by_cases h2 : to_ = 0
    · rw [if_pos h2] at h
      cases h
    · rw [if_neg h2] at h
      rw [Except.ok.injEq] at h
      rw [← h]

theorem init_step_approvals (caller : AccountId) (s : Simple_NFT) (i : Nat) :
    (init_step caller s i).approvals_token = s.approvals_token := by
  unfold init_step
  cases h : add_token_to s caller (TOKENID_INIT + i) with
  | ok t =>
    simp only
    exact add_token_to_approvals s caller (TOKENID_INIT + i) t h
  | error e =>
    simp only

theorem foldl_init_approvals (caller : AccountId) :
    ∀ (l : List Nat) (s : Simple_NFT),
      (l.foldl (init_step caller) s).approvals_token = s.approvals_token
  | [], _ => rfl
  | i :: l, s => by
    rw [List.foldl_cons,
      foldl_init_approvals caller l (init_step caller s i),
      init_step_approvals]

theorem new_approvals (caller : AccountId) : (new caller).approvals_token = [] :=
  foldl_init_approvals caller (List.range 10)
    { token_owner := [], owned_tokens_count := [], matedatas := [],
      approvals_token := [] }

theorem approvalInv_new (caller : AccountId) : ApprovalInv (new caller) := by
  constructor
  · show Map.NodupKeys (new caller).approvals_token
    rw [new_approvals]
    simp [Map.NodupKeys]
  · intro o t d hg
    rw [new_approvals] at hg
    simp [Map.get] at hg

theorem approvalInv_approve (s : Simple_NFT) (caller to_ : AccountId)
    (id : TokenId) (h : ApprovalInv s) :
    ApprovalInv (postState s (approve s caller to_ id)) := by
  rcases approve_cases s caller to_ id with heq | ⟨hown, hto, heq⟩
  · rw [heq]
    exact h
  · rw [heq]
    constructor
    · exact Map.nodupKeys_insert _ _ _ h.1
    · intro o t d hg
      have hg2 : Map.get (Map.insert s.approvals_token (caller, id) to_) (o, t) =
          some d := hg
      show owner_of s t = some o
      by_cases hkey : ((o : AccountId), (t : TokenId)) = (caller, id)
      · rw [Prod.mk.injEq] at hkey
        obtain ⟨rfl, rfl⟩ := hkey
        exact hown
      · rw [Map.get_insert_ne _ _ _ _ hkey] at hg2
        exact h.2 o t d hg2

/-- After `clear_approval`, the cleared token has no approval entry under any
key, given the invariant (entries keyed by other accounts cannot exist). -/
theorem clearSt_no_approval (s : Simple_NFT) (ow : AccountId) (id : TokenId)
    (hown : owner_of s id = some ow) (h : ApprovalInv s) (o : AccountId) :
    Map.get (clearSt s ow id).approvals_token (o, id) = none := by
  show Map.get (Map.erase s.approvals_token (ow, id)) (o, id) = none
  by_cases hkey : ((o : AccountId), (id : TokenId)) = (ow, id)
  · rw [hkey]
    exact Map.get_erase_self _ _ h.1
  · rw [Map.get_erase_ne _ _ _ hkey]
    cases hg : Map.get s.approvals_token (o, id) with
    | none => rfl
    | some d =>
      have hcon := h.2 o id d hg
      rw [hown] at hcon
      rw [Option.some.injEq] at hcon
      exact absurd (by rw [hcon]) hkey

theorem approvalInv_clearSt (s : Simple_NFT) (ow : AccountId) (id : TokenId)
    (hown : owner_of s id = some ow) (h : ApprovalInv s) :
    ApprovalInv (clearSt s ow id) := by
  constructor
  · exact Map.nodupKeys_erase _ _ h.1
  · intro o t d hg
    have hg2 : Map.get (Map.erase s.approvals_token (ow, id)) (o, t) = some d := hg
    show owner_of s t = some o
    by_cases hkey : ((o : AccountId), (t : TokenId)) = (ow, id)
    · rw [hkey] at hg2
      rw [Map.get_erase_self _ _ h.1] at hg2
      cases hg2
    · rw [Map.get_erase_ne _ _ _ hkey] at hg2
      exact h.2 o t d hg2

theorem approvalInv_removeSt (s1 : Simple_NFT) (from_ : AccountId) (id : TokenId)
    (c : Nat) (h : ApprovalInv s1)
    (hno : ∀ o : AccountId, Map.get s1.approvals_token (o, id) = none) :
    ApprovalInv (removeSt s1 from_ id c) := by
  constructor
  · exact h.1
  · intro o t d hg
    show Map.get (Map.erase s1.token_owner id) t = some o
    have hg1 : Map.get s1.approvals_token (o, t) = some d := hg
    by_cases ht : t = id
    · subst ht
      rw [hno o] at hg1
      cases hg1
    · have htne : (t : TokenId) ≠ id := ht
      rw [Map.get_erase_ne _ _ _ htne]
      exact h.2 o t d hg1

theorem approvalInv_addSt (s2 : Simple_NFT) (to_ : AccountId) (id : TokenId)
    (h : ApprovalInv s2)
    (hno : ∀ o : AccountId, Map.get s2.approvals_token (o, id) = none) :
    ApprovalInv (addSt s2 to_ id) := by
  constructor
  · exact h.1
  · intro o t d hg
    show Map.get (Map.insert s2.token_owner id to_) t = some o
    have hg1 : Map.get s2.approvals_token (o, t) = some d := hg
    by_cases ht : t = id
    · subst ht
      rw [hno o] at hg1
      cases hg1
    · have htne : (t : TokenId) ≠ id := ht
      rw [Map.get_insert_ne _ _ _ _ htne]
      exact h.2 o t d hg1

theorem approvalInv_ttf (s : Simple_NFT) (caller from_ to_ : AccountId)
    (id : TokenId) (na : Bool) (h : ApprovalInv s) :
    ApprovalInv (postState s (transfer_token_from s caller from_ to_ id na)) := by
  rcases postState_ttf_cases s caller from_ to_ id na with heq | ⟨ow, hown, heq⟩
  · rw [heq]
    exact h
  · rw [heq]
    have hclear : ApprovalInv (clearSt s ow id) := approvalInv_clearSt s ow id hown h
    have hnone : ∀ o : AccountId,
        Map.get (clearSt s ow id).approvals_token (o, id) = none :=
      clearSt_no_approval s ow id hown h
    rcases transfer_rest_result s from_ to_ id ow hown with ⟨hg, hrw⟩ | ⟨c, hg, hcase⟩
    · rw [hrw]
      exact hclear
    · have hremInv : ApprovalInv (removeSt (clearSt s ow id) from_ id c) :=
        approvalInv_removeSt (clearSt s ow id) from_ id c hclear hnone
      have hnone2 : ∀ o : AccountId,
          Map.get (removeSt (clearSt s ow id) from_ id c).approvals_token (o, id) =
            none := hnone
      rcases hcase with ⟨hcb, hrw⟩ | ⟨hcb, hto, hrw⟩ | ⟨hcb, hto, hrw⟩
      · rw [hrw]
        exact hremInv
      · rw [hrw]
        exact hremInv
      · rw [hrw]
        exact approvalInv_addSt (removeSt (clearSt s ow id) from_ id c) to_ id
          hremInv hnone2

theorem approvalInv_reachable (s : Simple_NFT) (h : Reachable s) :
    ApprovalInv s := by
  induction h with
  | newC caller => exact approvalInv_new caller
  | approveC s caller to_ id _ ih => exact approvalInv_approve s caller to_ id ih
  | transferC s caller dest id _ ih =>
    exact approvalInv_ttf s caller caller dest id false ih
  | transferFromC s caller from_ to_ id _ ih =>
    exact approvalInv_ttf s caller from_ to_ id true ih

/-- A successful `transfer_from` necessarily went through the full mutation
tail: the pre-state owner `ow` exists, `from`'s counter `c` was present, and
the result is `addSt (removeSt (clearSt ..) ..) ..`. -/
theorem transfer_from_ok_shape (s : Simple_NFT) (caller from_ to_ : AccountId)
    (id : TokenId) (s3 : Simple_NFT)
    (h : transfer_from s caller from_ to_ id = Outcome.ok s3) :
    ∃ ow c, owner_of s id = some ow
      ∧ s3 = addSt (removeSt (clearSt s ow id) from_ id c) to_ id := by
  unfold transfer_from transfer_token_from at h
  by_cases hex : exists_ s id = false
  · rw [if_pos hex] at h
    cases h
  · rw [if_neg hex,
      if_neg (fun hh : true = false ∧ _ => Bool.noConfusion hh.1),
      if_pos rfl] at h
    have how : (owner_of s id).isSome = true := by
      rw [exists_eq_isSome] at hex
      cases hq : (owner_of s id).isSome
      · rw [hq] at hex
        exact absurd rfl hex
      · rfl
    rcases Option.isSome_iff_exists.mp how with ⟨ow, hown⟩
    cases ha : approved_for_token s id caller with
    | none =>
      simp only [ha] at h
      cases h
    | some b =>
      cases b with
      | false =>
        simp only [ha] at h
        cases h
      | true =>
        simp only [ha] at h
        rcases transfer_rest_result s from_ to_ id ow hown with ⟨_, hrw⟩ | ⟨c, _, hcase⟩
        · rw [hrw] at h
          cases h
        · rcases hcase with ⟨_, hrw⟩ | ⟨_, _, hrw⟩ | ⟨_, _, hrw⟩ <;> rw [hrw] at h
          · cases h
          · cases h
          · rw [Outcome.ok.injEq] at h
            exact ⟨ow, c, hown, h.symm⟩

/-- Claim C7 (confirmed): after any successful delegated transfer of token
`id` from a reachable state, the approval entry keyed to the token's new
owner is absent: `get_approved` returns `Some(None)` (no panic, no delegate)
unless a new grant is made. -/
theorem C7_delegated_transfer_clears (s : Simple_NFT) (hreach : Reachable s)
    (caller from_ to_ : AccountId) (id : TokenId) (s3 : Simple_NFT)
    (h : transfer_from s caller from_ to_ id = Outcome.ok s3) :
    get_approved s3 id = some none := by
  have hInv := approvalInv_reachable s hreach
  rcases transfer_from_ok_shape s caller from_ to_ id s3 h with ⟨ow, c, hown, hs3⟩
  have howner3 : owner_of s3 id = some to_ := by
    rw [hs3]
    show Map.get (Map.insert
      (Map.erase s.token_owner id) id to_) id = some to_
    exact Map.get_insert_self _ id to_
  have hget3 : Map.get s3.approvals_token (to_, id) = none := by
    rw [hs3]
    show Map.get (clearSt s ow id).approvals_token (to_, id) = none
    exact clearSt_no_approval s ow id hown hInv to_
  unfold get_approved
  simp only [howner3, hget3]

/-- First state of the C7 witness run: `1` constructs and approves `2`. -/
def c7s1 : Simple_NFT := postState (new 1) (approve (new 1) 1 2 188)

/-- Second state: delegate `2` transfers token `188` from `1` to `3`. -/
def c7s2 : Simple_NFT := postState c7s1 (transfer_from c7s1 2 1 3 188)

/-- Witness for claim C7 on a concrete reachable run. -/
theorem C7_witness :
    transfer_from c7s1 2 1 3 188 = Outcome.ok c7s2
    ∧ get_approved c7s2 188 = some none := by
  have hr : Reachable c7s1 :=
    Reachable.approveC (new 1) 1 2 188 (Reachable.newC 1)
  have hok : transfer_from c7s1 2 1 3 188 = Outcome.ok c7s2 := by decide
  exact ⟨hok, C7_delegated_transfer_clears c7s1 hr 2 1 3 188 c7s2 hok⟩

end baseNFT
